import Mathlib

/-
  Verification of the go-filemanager pipeline engine.

  The definitions below are a shallow embedding of the Go sources:
  processing.go (ProcessFile, isValidMimeType, RunProcessingStep,
  ReplaceFileNameVariables), file_manager.go (FileProcess,
  AddProcessingUpdate, GetPublicUrlForFile, joinURL, path helpers) and
  upload.go (ProgressReader.Read).

  Modelling conventions:
  - Go machine integers are embedded as Int (no arithmetic in the claims
    approaches overflow).
  - Go maps are embedded as association lists with first-match lookup.
  - Nondeterministic environment effects are passed in as explicit
    parameters: the wall clock as `now`, file-system save failures as a
    `saveErr` oracle, os.Rename outcomes as an `osRename` oracle, and the
    plugin registry as pure functions from input files to appended
    statuses plus a result.
  - Channel traffic of one ProcessFile invocation is reified as a list of
    events (sends and the close performed by the deferred close).
-/

set_option maxHeartbeats 1000000

namespace FM

/-- Model of Go strings.ToLower. Go lowercases full Unicode; this model
lowercases the ASCII range, which coincides with Go on the ASCII strings
(mime types, recipe entries) the code compares. -/
def lowerChar (c : Char) : Char :=
  if 'A' ≤ c ∧ c ≤ 'Z' then Char.ofNat (c.toNat + 32) else c

/-- Model of Go strings.ToLower on a whole string. -/
def lowerStr (s : String) : String := String.mk (s.toList.map lowerChar)

/-- Model of Go strings.HasPrefix on whole strings, computed structurally
on the character lists. -/
def goHasPre (s pre : String) : Bool :=
  pre.toList.isPrefixOf s.toList

/-- Model of Go strings.HasSuffix, computed structurally. -/
def goHasSuf (s suf : String) : Bool :=
  suf.toList.reverse.isPrefixOf s.toList.reverse

/-- Model of Go strings.TrimPrefix: removes the prefix once when present. -/
def goTrimPre (s pre : String) : String :=
  if goHasPre s pre then String.mk (s.toList.drop pre.toList.length) else s

/-- Association-list lookup, first match wins; models Go map indexing for
the registries the code reads (registration order is irrelevant to the
claims). -/
def lookupStr {α : Type} (l : List (String × α)) (k : String) : Option α :=
  (l.find? (fun p => p.1 == k)).map (fun p => p.2)

/-- ProcessingResultFile from processing.go. -/
structure ProcessingResultFile where
  fileName : String
  localFilePath : String
  url : String
  fileSize : Int
  mimeType : String
  deriving DecidableEq

/-- ProcessingStatus from processing.go. The Go `error` field is embedded
as `Option String` (none = nil error, some msg = non-nil error value). -/
structure ProcessingStatus where
  processID : String
  timeStamp : Int
  processorName : String
  statusDescription : String
  percentage : Int
  error : Option String
  done : Bool
  resultingFiles : List ProcessingResultFile
  deriving DecidableEq

/-- FileProcess from file_manager.go. The Go field `LatestStatus` is a
`*ProcessingStatus`; `AddProcessingUpdate` stores `&update`, the address
of its by-value parameter, so the pointee is a cell disjoint from the
slice element that `append` copied the same value into. The embedding
keeps the pointee value in `latestStatus`; a write through the pointer
updates this field and nothing else. -/
structure FileProcess where
  id : String
  incomingFileName : String
  recipeName : String
  processingUpdates : List ProcessingStatus
  latestStatus : Option ProcessingStatus
  deriving DecidableEq

/-- AddProcessingUpdate from file_manager.go:
appends the update to the log and repoints LatestStatus at the address of
the (copied) parameter. -/
def AddProcessingUpdate (fp : FileProcess) (update : ProcessingStatus) : FileProcess :=
  { fp with
    processingUpdates := fp.processingUpdates ++ [update]
    latestStatus := some update }

/-- GetLatestProcessingStatus from file_manager.go. -/
def GetLatestProcessingStatus (fp : FileProcess) : Option ProcessingStatus :=
  fp.latestStatus

/-- Models the Go statement `fileProcess.LatestStatus.Done = true`
(processing.go, success epilogue of ProcessFile): a write through the
LatestStatus pointer, which mutates the pointee cell (the copy of the last
appended update) and does not touch the slice backing the log. -/
def setLatestDone (fp : FileProcess) : FileProcess :=
  { fp with latestStatus := fp.latestStatus.map (fun s => { s with done := true }) }

/-- ManagedFile from managedfile.go. `metaData` values are embedded as the
strings that the templating code would print for them via %v (the code in
scope stores only string values there); `content` keeps the raw bytes. -/
structure ManagedFile where
  fileName : String
  mimeType : String
  url : String
  localFilePath : String
  fileSize : Int
  metaData : List (String × String)
  processingErrors : List String
  content : List UInt8
  deriving DecidableEq

/-- ProcessingStep from processing.go. Params are an untyped bag in Go;
the engine itself never reads them, so they are embedded as string pairs. -/
structure ProcessingStep where
  pluginName : String
  params : List (String × String)
  deriving DecidableEq

/-- OutputFormat from processing.go (storage type is a string constant:
private, temp or public). -/
structure OutputFormat where
  format : String
  targetFileNames : List String
  storageType : String
  deriving DecidableEq

/-- Recipe from processing.go. -/
structure Recipe where
  name : String
  acceptedMimeTypes : List String
  minFileSize : Int
  maxFileSize : Int
  processingSteps : List ProcessingStep
  outputFormats : List OutputFormat
  deriving DecidableEq

/-- A processing plugin: Process receives the current files and the shared
FileProcess. The model returns the statuses the plugin appends to the
FileProcess during the call (in order) together with its result. -/
structure PluginModel where
  process : List ManagedFile → List ProcessingStatus × Except String (List ManagedFile)

/-- FileManager from file_manager.go (the fields the verified operations
read). -/
structure FileManager where
  publicLocalBasePath : String
  privateLocalBasePath : String
  baseUrl : String
  localTempPath : String
  processingPlugins : List (String × PluginModel)
  recipes : List (String × Recipe)

/-- Concrete status used by the C5 counterexample. -/
def cexStatus : ProcessingStatus :=
  { processID := "FP1", timeStamp := 0, processorName := "Step",
    statusDescription := "step ran", percentage := 0, error := none,
    done := false, resultingFiles := [] }

/-- Concrete fresh FileProcess used by the C5 counterexample. -/
def cexFP : FileProcess :=
  { id := "FP1", incomingFileName := "a.txt", recipeName := "r",
    processingUpdates := [], latestStatus := none }

/-- C5 counterexample: after AddProcessingUpdate, writing Done through
LatestStatus is NOT visible in the last element of ProcessingUpdates. At
the concrete input below the write flips done on the pointee while the
last log element still carries done = false, refuting the claimed
aliasing. -/
theorem latestStatus_alias_counterexample :
    (setLatestDone (AddProcessingUpdate cexFP cexStatus)).latestStatus
      = some { cexStatus with done := true } ∧
    (setLatestDone (AddProcessingUpdate cexFP cexStatus)).processingUpdates.getLast?
      = some cexStatus ∧
    cexStatus.done = false :=
  ⟨rfl, rfl, rfl⟩

/-- C5 (amended): GetLatestProcessingStatus returns a copy of the last
appended entry, equal to it in value at append time; an in-place mutation
through LatestStatus (such as the engine setting Done after the final
append) updates only that copy and is not visible in the last element of
ProcessingUpdates. -/
theorem latestStatus_copy_semantics (fp : FileProcess) (u : ProcessingStatus) :
    GetLatestProcessingStatus (AddProcessingUpdate fp u) = some u ∧
    (AddProcessingUpdate fp u).processingUpdates.getLast? = some u ∧
    (setLatestDone (AddProcessingUpdate fp u)).processingUpdates
      = (AddProcessingUpdate fp u).processingUpdates ∧
    (setLatestDone (AddProcessingUpdate fp u)).latestStatus
      = some { u with done := true } := by
  refine ⟨rfl, ?_, rfl, rfl⟩
  simp [AddProcessingUpdate]

/-- Splits a character list at every slash (the segments of a path),
mirroring strings.Split on the slash separator. -/
def splitSlash : List Char → List (List Char)
  | [] => [[]]
  | c :: cs =>
    match splitSlash cs with
    | [] => [[]]
    | seg :: rest => if c = '/' then [] :: seg :: rest else (c :: seg) :: rest

/-- One step of the segment processing performed by Go path.Clean: empty
and dot segments vanish, dotdot pops the previous segment unless the stack
holds only dotdot segments (or, when rooted, is empty). The stack `out` is
kept reversed. -/
def cleanFold (rooted : Bool) (out : List (List Char)) (seg : List Char) : List (List Char) :=
  if seg = [] ∨ seg = ['.'] then out
  else if seg = ['.', '.'] then
    match out with
    | [] => if rooted then [] else [['.', '.']]
    | prev :: rest => if prev = ['.', '.'] then ['.', '.'] :: prev :: rest else rest
  else seg :: out

/-- Joins path segments with slashes. -/
def joinSegs : List (List Char) → List Char
  | [] => []
  | [s] => s
  | s :: rest => s ++ '/' :: joinSegs rest

/-- Model of Go path.Clean (and filepath.Clean with the slash separator of
the target platform): splits on slashes, eliminates empty, dot and dotdot
segments, keeps rootedness, returns "." for an empty result. -/
def goPathClean (p : String) : String :=
  if p = "" then "." else
  let rooted := goHasPre p "/"
  let out := (splitSlash p.toList).foldl (cleanFold rooted) []
  let joined := joinSegs out.reverse
  if rooted then String.mk ('/' :: joined)
  else if joined = [] then "." else String.mk joined

/-- Model of Go path.Join / filepath.Join on the two-element calls the code
makes: empty elements are skipped and the joined string is cleaned; all
empty yields the empty string. -/
def goPathJoin (a b : String) : String :=
  if a = "" then (if b = "" then "" else goPathClean b)
  else goPathClean (a ++ "/" ++ b)

/-- Everything up to and including the last slash of the character list. -/
def dropAfterLastSlash (l : List Char) : List Char :=
  ((l.reverse.dropWhile (fun c => c ≠ '/'))).reverse

/-- Model of Go filepath.Dir: the cleaned portion of the path before the
final path element. -/
def goDir (p : String) : String :=
  goPathClean (String.mk (dropAfterLastSlash p.toList))

/-- Model of Go filepath.Base: the last path element, after trailing
slashes are removed; "." for the empty path and "/" for all-slash paths. -/
def goBase (p : String) : String :=
  if p = "" then "." else
  let r := p.toList.reverse.dropWhile (fun c => c = '/')
  if r = [] then "/"
  else String.mk ((r.takeWhile (fun c => c ≠ '/')).reverse)

/-- Helper of the Go filepath.Ext model: walks the reversed path and
returns the suffix from the final dot of the final element. -/
def goExtAux : List Char → List Char → String
  | [], _ => ""
  | c :: cs, acc =>
    if c = '/' then ""
    else if c = '.' then String.mk ('.' :: acc)
    else goExtAux cs (c :: acc)

/-- Model of Go filepath.Ext: the file name extension including the dot,
empty when the final element has no dot. -/
def goExt (p : String) : String := goExtAux p.toList.reverse []

/-- getFilePathAndName from the processing sources: full joined path, its
directory part and the pure file name. -/
def getFilePathAndName (localBasePath filePathName : String) :
    String × String × String :=
  let fullPath := goPathJoin localBasePath filePathName
  (fullPath, goDir fullPath, goBase fullPath)

/-- GetPublicLocalFilePath from file_manager.go. -/
def FileManager.GetPublicLocalFilePath (fm : FileManager) (fileName : String) : String :=
  goPathJoin fm.publicLocalBasePath fileName

/-- GetPrivateLocalFilePath from file_manager.go. -/
def FileManager.GetPrivateLocalFilePath (fm : FileManager) (fileName : String) : String :=
  goPathJoin fm.privateLocalBasePath fileName

/-- GetLocalTemporaryFilePath from file_manager.go. -/
def FileManager.GetLocalTemporaryFilePath (fm : FileManager) (fileName : String) : String :=
  goPathJoin fm.localTempPath fileName

/-- GetLocalPathForFile from file_manager.go: the Go switch has no default
case, so an unknown storage type leaves the zero value. -/
def FileManager.GetLocalPathForFile (fm : FileManager) (target : String) (filename : String) : String :=
  if target = "private" then fm.GetPrivateLocalFilePath filename
  else if target = "temp" then fm.GetLocalTemporaryFilePath filename
  else if target = "public" then fm.GetPublicLocalFilePath filename
  else ""

/-- Model of Go mime.TypeByExtension: the extension is looked up first
case-sensitively, then case-insensitively, in the mime table (builtin
entries plus system mime.types); an absent key yields the empty string.
The table is a parameter; every key of the real table begins with a dot. -/
def mimeTypeByExtension (table : List (String × String)) (ext : String) : String :=
  match lookupStr table ext with
  | some t => t
  | none => (lookupStr table (lowerStr ext)).getD ""

/-- One channel interaction of an engine run: a send of the (shared)
FileProcess or the close performed when the producer returns. -/
inductive ChanEvent where
  | send (fp : FileProcess)
  | close
  deriving DecidableEq

/-- Whether a channel event is the close. -/
def ChanEvent.isClose : ChanEvent → Bool
  | .close => true
  | _ => false

/-- ProgressReader from upload.go: the wrapped io.Reader and the channel
are the abstracted environment; the model keeps the counters, the shared
FileProcess and the Done flag. -/
structure ProgressReader where
  size : Int
  uploaded : Int
  fileProcess : FileProcess
  done : Bool

/-- Model of the Go expression int(float64(uploaded) / float64(size) * 100)
using exact integer truncation. The float64 computation agrees with this
exact value whenever the float quotient is exact, in particular on all
inputs the theorems below instantiate; both operands are nonnegative in
every reachable call, where Go truncation and this division coincide. -/
def uploadPercentageRaw (uploaded size : Int) : Int := (uploaded * 100) / size

/-- The percentage computed by ProgressReader.Read including the clamp to
at most 100. -/
def clampedUploadPercentage (uploaded size : Int) : Int :=
  let p := uploadPercentageRaw uploaded size
  if p > 100 then 100 else p

/-- The byte accounting at the top of ProgressReader.Read: the read count
is added to Uploaded, and while Size is still zero it is filled from the
stat of the underlying file when that is available (statSize models
file.Stat().Size() for an *os.File source). -/
def ProgressReader.afterRead (r : ProgressReader) (n : Int) (statSize : Option Int) : ProgressReader :=
  let r1 : ProgressReader := { r with uploaded := r.uploaded + n }
  if r1.size = 0 then
    match statSize with
    | some sz => { r1 with size := sz }
    | none => r1
  else r1

/-- The status literal built by ProgressReader.Read. -/
def uploadStatus (pid : String) (now : Int) (incomingName : String) (pct : Int) : ProcessingStatus :=
  { processID := pid, timeStamp := now, processorName := "FileUpload",
    statusDescription := "Uploading file: " ++ incomingName,
    percentage := pct, error := none, done := false, resultingFiles := [] }

/-- ProgressReader.Read from upload.go, as a state transformer returning
the updated reader and the channel events of this call. When the computed
clamped percentage equals 100 the Go code sets Done on its local status
value and then discards it: nothing is appended and nothing is sent; only
below 100 does it append the status and forward the shared FileProcess. -/
def ProgressReader.Read (r : ProgressReader) (now : Int) (n : Int) (statSize : Option Int) :
    ProgressReader × List ChanEvent :=
  let r1 := r.afterRead n statSize
  if r1.size > 0 ∧ r1.done = false then
    let pct := clampedUploadPercentage r1.uploaded r1.size
    if pct = 100 then
      (r1, [])
    else
      let fp2 := AddProcessingUpdate r1.fileProcess
        (uploadStatus r1.fileProcess.id now r1.fileProcess.incomingFileName pct)
      ({ r1 with fileProcess := fp2 }, [ChanEvent.send fp2])
  else (r1, [])

/-- Fresh FileProcess used by the C9 counterexample. -/
def cexFP9 : FileProcess :=
  { id := "FP2", incomingFileName := "up.bin", recipeName := "",
    processingUpdates := [], latestStatus := none }

/-- Reader state used by the C9 counterexample: total size 10 known, no
bytes transferred yet. -/
def cexReader : ProgressReader :=
  { size := 10, uploaded := 0, fileProcess := cexFP9, done := false }

/-- C9 counterexample: on the read where the clamped percentage reaches
100 (10 of 10 bytes transferred), no status is appended to the shared
FileProcess and nothing is forwarded on the channel, refuting the claim
that the adapter appends and forwards on that read as well. -/
theorem progressRead_at_100_counterexample :
    clampedUploadPercentage (cexReader.afterRead 10 none).uploaded
        (cexReader.afterRead 10 none).size = 100 ∧
    (ProgressReader.Read cexReader 0 10 none).2 = [] ∧
    (ProgressReader.Read cexReader 0 10 none).1.fileProcess.processingUpdates = [] := by
  refine ⟨by decide, by decide, by decide⟩

/-- C9 (amended): on every Read where the total size is known and positive
and the reader is not done, the adapter computes the percentage
transferred/total*100 clamped to at most 100; when the clamped value is
below 100 it appends exactly one ProcessingStatus carrying it to the
shared FileProcess and forwards the updated process on the channel, and on
the read where the clamped value reaches 100 it appends nothing and
forwards nothing. -/
theorem progressRead_forwarding (r : ProgressReader) (now n : Int) (statSize : Option Int)
    (hsize : 0 < (r.afterRead n statSize).size)
    (hdone : (r.afterRead n statSize).done = false) :
    (clampedUploadPercentage (r.afterRead n statSize).uploaded (r.afterRead n statSize).size ≠ 100 →
      ProgressReader.Read r now n statSize =
        ({ r.afterRead n statSize with
            fileProcess := AddProcessingUpdate (r.afterRead n statSize).fileProcess
              (uploadStatus (r.afterRead n statSize).fileProcess.id now
                (r.afterRead n statSize).fileProcess.incomingFileName
                (clampedUploadPercentage (r.afterRead n statSize).uploaded
                  (r.afterRead n statSize).size)) },
          [ChanEvent.send (AddProcessingUpdate (r.afterRead n statSize).fileProcess
              (uploadStatus (r.afterRead n statSize).fileProcess.id now
                (r.afterRead n statSize).fileProcess.incomingFileName
                (clampedUploadPercentage (r.afterRead n statSize).uploaded
                  (r.afterRead n statSize).size)))])) ∧
    (clampedUploadPercentage (r.afterRead n statSize).uploaded (r.afterRead n statSize).size = 100 →
      ProgressReader.Read r now n statSize = (r.afterRead n statSize, [])) := by
  constructor
  · intro hne
    simp only [ProgressReader.Read]
    rw [if_pos ⟨hsize, hdone⟩, if_neg hne]
  · intro heq
    simp only [ProgressReader.Read]
    rw [if_pos ⟨hsize, hdone⟩, if_pos heq]

/-- Reader state used by the C9 witness. -/
def wReader : ProgressReader :=
  { size := 10, uploaded := 0, fileProcess := cexFP9, done := false }

/-- C9 witness: at total size 10 with 5 bytes transferred the percentage
is 50, one status is appended and one send happens. -/
theorem progressRead_forwarding_witness :
    (ProgressReader.Read wReader 0 5 none).2.length = 1 ∧
    (ProgressReader.Read wReader 0 5 none).1.fileProcess.processingUpdates.length = 1 ∧
    (ProgressReader.Read wReader 0 5 none).1.fileProcess.processingUpdates.map
      (fun s => s.percentage) = [50] := by
  have h := (progressRead_forwarding wReader 0 5 none (by decide) (by decide)).1 (by decide)
  rw [h]
  refine ⟨rfl, rfl, by decide⟩

/-- The dummy single-step FileProcess statuses of RunProcessingStep. -/
def singleStepInitStatus (pid : String) (now : Int) (pluginName : String) : ProcessingStatus :=
  { processID := pid, timeStamp := now, processorName := pluginName,
    statusDescription := "Initiating single step processing",
    percentage := 0, error := none, done := false, resultingFiles := [] }

/-- The failure status RunProcessingStep appends to its dummy process. -/
def singleStepErrorStatus (pid : String) (now : Int) (pluginName : String) (err : String) : ProcessingStatus :=
  { processID := pid, timeStamp := now, processorName := pluginName,
    statusDescription := "Error during processing",
    percentage := 0, error := some err, done := true, resultingFiles := [] }

/-- The completion status RunProcessingStep appends to its dummy process. -/
def singleStepDoneStatus (pid : String) (now : Int) (pluginName : String) : ProcessingStatus :=
  { processID := pid, timeStamp := now, processorName := pluginName,
    statusDescription := "Processing completed successfully",
    percentage := 0, error := none, done := true, resultingFiles := [] }

/-- RunProcessingStep from processing.go. The fresh process id produced by
NID is passed in as pid; osRename models os.Rename (none = success,
some msg = failure). The dummy FileProcess is kept faithfully but, as in
Go, never escapes the call; only the (file, error) pair is returned,
embedded as Except. -/
def RunProcessingStep (fm : FileManager) (osRename : String → String → Option String)
    (now : Int) (pid : String) (file : ManagedFile) (pluginName : String)
    (_params : List (String × String)) (targetStorageType : String) :
    Except String ManagedFile :=
  match lookupStr fm.processingPlugins pluginName with
  | none => .error ("processing plugin not found: " ++ pluginName)
  | some plugin =>
    let fileProcess : FileProcess :=
      { id := pid, incomingFileName := file.fileName, recipeName := "SingleStepProcess",
        processingUpdates := [], latestStatus := none }
    let fileProcess := AddProcessingUpdate fileProcess (singleStepInitStatus pid now pluginName)
    let pr := plugin.process [file]
    let fileProcess := pr.1.foldl AddProcessingUpdate fileProcess
    match pr.2 with
    | .error err =>
      let _fpErr := AddProcessingUpdate fileProcess (singleStepErrorStatus pid now pluginName err)
      .error err
    | .ok processedFiles =>
      match processedFiles with
      | [] => .error ("no file processed by plugin: " ++ pluginName)
      | resultFile :: _ =>
        if targetStorageType ≠ "" then
          let localPath := fm.GetLocalPathForFile targetStorageType resultFile.fileName
          if localPath ≠ resultFile.localFilePath then
            match osRename resultFile.localFilePath localPath with
            | some e => .error e
            | none =>
              let resultFile := { resultFile with localFilePath := localPath }
              let _fpDone := AddProcessingUpdate fileProcess (singleStepDoneStatus pid now pluginName)
              .ok resultFile
          else
            let _fpDone := AddProcessingUpdate fileProcess (singleStepDoneStatus pid now pluginName)
            .ok resultFile
        else
          let _fpDone := AddProcessingUpdate fileProcess (singleStepDoneStatus pid now pluginName)
          .ok resultFile

/-- Input file of the C10 counterexample, living in temp storage. -/
def cexFile10 : ManagedFile :=
  { fileName := "a.txt", mimeType := "text/plain", url := "",
    localFilePath := "/tmp/a.txt", fileSize := 3, metaData := [],
    processingErrors := [], content := [] }

/-- Second output file produced by the C10 counterexample plugin. -/
def cexFile10b : ManagedFile :=
  { cexFile10 with fileName := "b.txt", localFilePath := "/tmp/b.txt" }

/-- Plugin of the C10 counterexample: succeeds with two output files. -/
def plugin10 : PluginModel :=
  ⟨fun _ => ([], .ok [cexFile10, cexFile10b])⟩

/-- FileManager of the C10 counterexample. -/
def fm10 : FileManager :=
  { publicLocalBasePath := "/pub", privateLocalBasePath := "/priv",
    baseUrl := "https://cdn.x/", localTempPath := "/tmp",
    processingPlugins := [("p10", plugin10)], recipes := [] }

/-- C10 counterexample: the plugin exists, Process succeeds with a
nonempty output list, yet RunProcessingStep returns an error (and no
file): the caller requested private storage, the private path differs
from the current one, and the rename fails; so the call does not return
the first output file as the claim states. -/
theorem runProcessingStep_relocation_counterexample :
    (plugin10.process [cexFile10]).2 = .ok [cexFile10, cexFile10b] ∧
    RunProcessingStep fm10 (fun _ _ => some "rename failed") 0 "FPX" cexFile10 "p10" [] "private"
      = .error "rename failed" := by
  constructor
  · rfl
  · rfl

/-- C10 (amended): for every call where the named plugin exists and its
Process call returns without error: an empty output list yields an error
and no file; otherwise, when the caller specifies no target storage type
(so no relocation applies), RunProcessingStep returns exactly the first
element of the output list and discards the rest. (With a target storage
type the first element may first be relocated, and a failed rename makes
the call return that error instead.) -/
theorem runProcessingStep_first_output (fm : FileManager)
    (osRename : String → String → Option String) (now : Int) (pid : String)
    (file : ManagedFile) (pluginName : String) (params : List (String × String))
    (plugin : PluginModel) (app : List ProcessingStatus) (res : List ManagedFile)
    (hlook : lookupStr fm.processingPlugins pluginName = some plugin)
    (hproc : plugin.process [file] = (app, .ok res)) :
    (res = [] →
      RunProcessingStep fm osRename now pid file pluginName params ""
        = .error ("no file processed by plugin: " ++ pluginName)) ∧
    (∀ f rest, res = f :: rest →
      RunProcessingStep fm osRename now pid file pluginName params "" = .ok f) := by
  constructor
  · intro hres
    simp only [RunProcessingStep, hlook, hproc, hres]
  · intro f rest hres
    simp only [RunProcessingStep, hlook, hproc, hres]
    simp

/-- Output file of the C10 witness plugin. -/
def wFile10 : ManagedFile :=
  { cexFile10 with fileName := "w.txt", localFilePath := "/tmp/w.txt" }

/-- Plugin of the C10 witness: succeeds with two outputs; the second is
discarded. -/
def wPlugin10 : PluginModel :=
  ⟨fun _ => ([], .ok [wFile10, cexFile10b])⟩

/-- FileManager of the C10 witness. -/
def wFm10 : FileManager :=
  { fm10 with processingPlugins := [("pw", wPlugin10)] }

/-- C10 witness: with no target storage type, the call returns exactly the
first output file. -/
theorem runProcessingStep_first_output_witness :
    RunProcessingStep wFm10 (fun _ _ => none) 0 "FPW" cexFile10 "pw" [] "" = .ok wFile10 := by
  exact (runProcessingStep_first_output wFm10 (fun _ _ => none) 0 "FPW" cexFile10 "pw" []
    wPlugin10 [] [wFile10, cexFile10b] rfl rfl).2 wFile10 [cexFile10b] rfl

/-- isValidMimeType from processing.go: the loop returns true as soon as
the lowercased incoming mime type starts with a lowercased accepted entry. -/
def isValidMimeType (mimeType : String) (acceptedMimeTypes : List String) : Bool :=
  acceptedMimeTypes.any (fun accepted => goHasPre (lowerStr mimeType) (lowerStr accepted))

/-- The file-size guard of ProcessFile: strictly below the minimum or
strictly above the maximum is rejected, the bounds themselves pass. -/
def sizeInvalid (file : ManagedFile) (recipe : Recipe) : Bool :=
  file.fileSize < recipe.minFileSize || file.fileSize > recipe.maxFileSize

/-- The RecipeCheck failure status of ProcessFile. -/
def recipeNotFoundStatus (pid : String) (now : Int) (recipeName : String) : ProcessingStatus :=
  { processID := pid, timeStamp := now, processorName := "RecipeCheck",
    statusDescription := "Recipe not found: " ++ recipeName,
    percentage := 0, error := some ("recipe not found: " ++ recipeName),
    done := true, resultingFiles := [] }

/-- The MimeTypeCheck failure status of ProcessFile. -/
def invalidMimeStatus (pid : String) (now : Int) (mimeType : String) : ProcessingStatus :=
  { processID := pid, timeStamp := now, processorName := "MimeTypeCheck",
    statusDescription := "Invalid MIME type: " ++ mimeType,
    percentage := 0, error := some ("invalid MIME type: " ++ mimeType),
    done := true, resultingFiles := [] }

/-- The FileSizeCheck failure status of ProcessFile. -/
def invalidSizeStatus (pid : String) (now : Int) (size : Int) : ProcessingStatus :=
  { processID := pid, timeStamp := now, processorName := "FileSizeCheck",
    statusDescription := "Invalid file size: " ++ toString size ++ " bytes",
    percentage := 0, error := some ("invalid file size: " ++ toString size ++ " bytes"),
    done := true, resultingFiles := [] }

/-- The missing-plugin failure status of the step loop of ProcessFile. -/
def pluginNotFoundStatus (pid : String) (now : Int) (pluginName : String) : ProcessingStatus :=
  { processID := pid, timeStamp := now, processorName := pluginName,
    statusDescription := "processing plugin(" ++ pluginName ++ ") not found",
    percentage := 0, error := some ("processing plugin(" ++ pluginName ++ ") not found"),
    done := true, resultingFiles := [] }

/-- The plugin-failure status of the step loop of ProcessFile. -/
def stepFailedStatus (pid : String) (now : Int) (pluginName : String) (err : String) : ProcessingStatus :=
  { processID := pid, timeStamp := now, processorName := pluginName,
    statusDescription := "Processing failed: " ++ err,
    percentage := 0, error := some err, done := true, resultingFiles := [] }

/-- The per-step success status of ProcessFile, carrying the percentage
computed from the current file count and the total step count. -/
def stepCompletedStatus (pid : String) (now : Int) (pluginName : String) (pct : Int) : ProcessingStatus :=
  { processID := pid, timeStamp := now, processorName := pluginName,
    statusDescription := "Processing step completed: " ++ pluginName,
    percentage := pct, error := none, done := false, resultingFiles := [] }

/-- The invalid-storage-type failure status of the output loop. -/
def invalidStorageStatus (pid : String) (now : Int) (storageType : String) : ProcessingStatus :=
  { processID := pid, timeStamp := now, processorName := "OutputFormatCheck",
    statusDescription := "Invalid storage type: " ++ storageType,
    percentage := 0, error := some ("invalid storage type: " ++ storageType),
    done := true, resultingFiles := [] }

/-- The save-failure status of the output loop. -/
def saveFailedStatus (pid : String) (now : Int) (err : String) : ProcessingStatus :=
  { processID := pid, timeStamp := now, processorName := "FileSave",
    statusDescription := "Failed to save output file: " ++ err,
    percentage := 0, error := some err, done := true, resultingFiles := [] }

/-- The terminal success status of ProcessFile. -/
def completedStatus (pid : String) (now : Int) (resultingFiles : List ProcessingResultFile) : ProcessingStatus :=
  { processID := pid, timeStamp := now, processorName := "FileProcessing",
    statusDescription := "File processing completed",
    percentage := 100, error := none, done := true, resultingFiles := resultingFiles }

/-- The literal token opener of the file-name template language: a left
brace followed by the word metadata and a dot. -/
def tokenStart : List Char := '\x7b' :: "metadata.".toList

/-- Scanner state of the template replacement: scanning plain text,
matching the token opener (characters matched so far and the opener
characters still expected), or reading a key (characters read so far). -/
inductive RState where
  | scan
  | opener (buf : List Char) (rest : List Char)
  | key (acc : List Char)

/-- Character scanner implementing the regexp replacement of
ReplaceFileNameVariables (pattern: left brace, metadata, dot, one or more
non-right-brace characters, right brace, replaced via
ReplaceAllStringFunc): every such token is replaced by the metadata value
of its key, or by the empty string when the key is absent; a key is
everything up to the first right brace and must be nonempty; all other
text is kept verbatim, and an unclosed or empty-key token is literal
text. The `.opener [] []` state is unreachable (the expected-rest list is
nonempty in every reachable opener state). -/
def replAux (md : List (String × String)) : List Char → RState → List Char
  | [], .scan => []
  | [], .opener buf _ => buf
  | [], .key acc => tokenStart ++ acc
  | c :: cs, .scan =>
    if c = '\x7b' then replAux md cs (.opener [c] (tokenStart.drop 1))
    else c :: replAux md cs .scan
  | c :: cs, .opener buf rest =>
    match rest with
    | [] => buf ++ c :: cs
    | e :: es =>
      if c = e then
        match es with
        | [] => replAux md cs (.key [])
        | _ :: _ => replAux md cs (.opener (buf ++ [c]) es)
      else
        buf ++ (if c = '\x7b' then replAux md cs (.opener [c] (tokenStart.drop 1))
                else c :: replAux md cs .scan)
  | c :: cs, .key acc =>
    if c = '\x7d' then
      if acc = [] then tokenStart ++ '\x7d' :: replAux md cs .scan
      else ((lookupStr md (String.mk acc)).getD "").toList ++ replAux md cs .scan
    else replAux md cs (.key (acc ++ [c]))

/-- ReplaceFileNameVariables from processing.go: substitutes metadata
tokens, then appends the result of mime.TypeByExtension applied to the
whole original file name when nonempty (a quirk of the source: the lookup
is keyed by dot-extensions, so it yields the empty string for every
ordinary file name). -/
def ReplaceFileNameVariables (mimeTable : List (String × String)) (fileName : String)
    (file : ManagedFile) : String :=
  let fileName := String.mk (replAux file.metaData fileName.toList .scan)
  let extension := mimeTypeByExtension mimeTable file.fileName
  if extension ≠ "" then fileName ++ extension else fileName

/-- The per-template output name resolution of ProcessFile: template
substitution followed by appending the extension of the original file
name when the resolved name has none. -/
def resolveTargetFilePath (mimeTable : List (String × String)) (tmpl : String)
    (file : ManagedFile) : String :=
  let targetFilePath := ReplaceFileNameVariables mimeTable tmpl file
  if goExt targetFilePath = "" then targetFilePath ++ goExt file.fileName
  else targetFilePath

/-- The parts of a parsed URL needed by joinURL: optional scheme and host
(absent for a relative reference) and the path. Queries, fragments,
userinfo, opaque forms and percent escaping do not occur in the inputs
the model admits. -/
structure URLModel where
  scheme : Option String
  host : Option String
  path : String
  deriving DecidableEq

/-- Splits a character list at the first scheme separator (colon slash
slash), returning the parts before and after it. -/
def splitScheme : List Char → Option (List Char × List Char)
  | [] => none
  | ':' :: '/' :: '/' :: rest => some ([], rest)
  | c :: cs =>
    match splitScheme cs with
    | some (pre, post) => some (c :: pre, post)
    | none => none

/-- Model of net/url Parse restricted to the shapes joinURL feeds it: an
absolute URL scheme://host/path, or a relative path reference without
colon, query, fragment or dot segments. Anything else is unmodelled and
reported as an error (such inputs are outside every verified claim). -/
def parseURLModel (s : String) : Except String URLModel :=
  let l := s.toList
  if l.any (fun c => c == '?' || c == '#') then .error "unmodelled url"
  else
    match splitScheme l with
    | some (scheme, rest) =>
      if scheme = [] ∨ scheme.any (fun c => c == '/') then .error "unmodelled url"
      else
        let host := rest.takeWhile (fun c => c ≠ '/')
        let path := rest.dropWhile (fun c => c ≠ '/')
        .ok { scheme := some (String.mk scheme), host := some (String.mk host),
              path := String.mk path }
    | none =>
      if l.any (fun c => c == ':') then .error "unmodelled url"
      else if (splitSlash l).any (fun seg => seg = ['.'] ∨ seg = ['.', '.']) then
        .error "unmodelled url"
      else .ok { scheme := none, host := none, path := s }

/-- Model of URL.ResolveReference for a relative reference against an
absolute base, per the RFC 3986 merge: an empty reference path keeps the
base path, an absolute one replaces it, and otherwise the reference is
appended to the base path truncated after its last slash (dot segments do
not occur in the admitted inputs). -/
def resolveReferenceModel (base ref : URLModel) : URLModel :=
  if ref.path = "" then base
  else if goHasPre ref.path "/" then { base with path := ref.path }
  else
    let dir := String.mk (dropAfterLastSlash base.path.toList)
    { base with path := dir ++ ref.path }

/-- Model of URL.String for the shapes above. -/
def urlStringModel (u : URLModel) : String :=
  match u.scheme, u.host with
  | some sch, some h => sch ++ "://" ++ h ++ u.path
  | _, _ => u.path

/-- joinURL from file_manager.go: ensures the base URL ends with a slash,
strips one leading slash from the relative path, parses both and resolves
the reference against the base. -/
def joinURL (baseURL relativePath : String) : Except String String :=
  let baseURL := if goHasSuf baseURL "/" then baseURL else baseURL ++ "/"
  let relativePath := goTrimPre relativePath "/"
  match parseURLModel baseURL with
  | .error e => .error e
  | .ok base =>
    match parseURLModel relativePath with
    | .error e => .error e
    | .ok rel => .ok (urlStringModel (resolveReferenceModel base rel))

/-- GetPublicUrlForFile from file_manager.go: requires the local path to
lie under the public base path, strips that prefix and joins the
remainder onto the configured base URL. The Go (url, err) return pair is
embedded as Except. -/
def FileManager.GetPublicUrlForFile (fm : FileManager) (localFilePath : String) :
    Except String String :=
  if goHasPre localFilePath fm.publicLocalBasePath = false then .error "local file not found"
  else joinURL fm.baseUrl (goTrimPre localFilePath fm.publicLocalBasePath)

/-- Result of the step loop of ProcessFile: the FileProcess after the
loop, the channel events, the names of the plugins whose Process was
invoked, and the current files on success (none after an early terminal
failure). -/
structure StepsResult where
  fp : FileProcess
  events : List ChanEvent
  invoked : List String
  outcome : Option (List ManagedFile)

/-- The step loop of ProcessFile from processing.go: empty plugin names
are skipped; a missing plugin or a plugin error appends one terminal
status and stops; a successful step replaces the working set and appends
a progress status whose percentage is the file count times 100 divided by
the total step count. Statuses appended by the plugin itself land in the
log before the engine status of that step. -/
def runSteps (fm : FileManager) (now : Int) (totalSteps : Nat) :
    FileProcess → List ManagedFile → List ProcessingStep → StepsResult
  | fp, files, [] => ⟨fp, [], [], some files⟩
  | fp, files, step :: rest =>
    if step.pluginName = "" then runSteps fm now totalSteps fp files rest
    else
      match lookupStr fm.processingPlugins step.pluginName with
      | none =>
        let fp1 := AddProcessingUpdate fp (pluginNotFoundStatus fp.id now step.pluginName)
        ⟨fp1, [ChanEvent.send fp1], [], none⟩
      | some plugin =>
        let pr := plugin.process files
        let fp1 := pr.1.foldl AddProcessingUpdate fp
        match pr.2 with
        | .error err =>
          let fp2 := AddProcessingUpdate fp1 (stepFailedStatus fp.id now step.pluginName err)
          ⟨fp2, [ChanEvent.send fp2], [step.pluginName], none⟩
        | .ok processedFiles =>
          let pct : Int := ((processedFiles.length * 100) / totalSteps : Nat)
          let fp2 := AddProcessingUpdate fp1 (stepCompletedStatus fp.id now step.pluginName pct)
          let r := runSteps fm now totalSteps fp2 processedFiles rest
          ⟨r.fp, ChanEvent.send fp2 :: r.events, step.pluginName :: r.invoked, r.outcome⟩

/-- Models m[k] = v on a Go map embedded as an association list: replaces
the first binding of the key or appends a new one. -/
def setMeta (m : List (String × String)) (k v : String) : List (String × String) :=
  match m with
  | [] => [(k, v)]
  | (k0, v0) :: rest => if k0 = k then (k, v) :: rest else (k0, v0) :: setMeta rest k v

/-- Save effect from the ManagedFile sources: on success the file size is
recomputed from the written content and the mime type from the extension
of the local path. -/
def saveEffect (mimeTable : List (String × String)) (f : ManagedFile) : ManagedFile :=
  { f with
    fileSize := (f.content.length : Int)
    mimeType := mimeTypeByExtension mimeTable (goExt f.localFilePath) }

/-- The storage-type switch of the output loop of ProcessFile: the local
path for the three known storage classes, none for the default (invalid)
case. -/
def storageLocalPath (fm : FileManager) (storageType : String) (fullFilePath : String) :
    Option String :=
  if storageType = "private" then some (fm.GetPrivateLocalFilePath fullFilePath)
  else if storageType = "temp" then some (fm.GetLocalTemporaryFilePath fullFilePath)
  else if storageType = "public" then some (fm.GetPublicLocalFilePath fullFilePath)
  else none

/-- Result of the output expansion loops: the FileProcess, channel events,
and the accumulated output files on success (none after a terminal
failure). -/
structure OutResult where
  fp : FileProcess
  events : List ChanEvent
  outcome : Option (List ManagedFile)

/-- The inner loop of the output expansion of ProcessFile: one output
format, iterating its target file name templates; resolves each template,
routes the path by storage type, derives the public URL for public
storage, copies the content and saves. An invalid storage type or a save
failure appends one terminal status and stops the whole expansion. -/
def runTemplates (fm : FileManager) (mimeTable : List (String × String))
    (saveErr : ManagedFile → Option String) (now : Int) (file : ManagedFile)
    (storageType : String) :
    FileProcess → List String → List ManagedFile → OutResult
  | fp, [], acc => ⟨fp, [], some acc⟩
  | fp, tmpl :: rest, acc =>
    let targetFilePath := resolveTargetFilePath mimeTable tmpl file
    let gp := getFilePathAndName "" targetFilePath
    let outputFile : ManagedFile :=
      { fileName := gp.2.2, mimeType := file.mimeType, url := "",
        localFilePath := "", fileSize := file.fileSize,
        metaData := file.metaData, processingErrors := [], content := [] }
    match storageLocalPath fm storageType gp.1 with
    | none =>
      let fp1 := AddProcessingUpdate fp (invalidStorageStatus fp.id now storageType)
      ⟨fp1, [ChanEvent.send fp1], none⟩
    | some lp =>
      let url :=
        if storageType = "public" then
          match fm.GetPublicUrlForFile lp with
          | .ok u => u
          | .error _ => ""
        else ""
      let outputFile := { outputFile with localFilePath := lp, url := url, content := file.content }
      match saveErr outputFile with
      | some err =>
        let fp1 := AddProcessingUpdate fp (saveFailedStatus fp.id now err)
        ⟨fp1, [ChanEvent.send fp1], none⟩
      | none =>
        runTemplates fm mimeTable saveErr now file storageType fp rest
          (acc ++ [saveEffect mimeTable outputFile])

/-- The outer loop of the output expansion of ProcessFile over all output
formats. -/
def runOutputs (fm : FileManager) (mimeTable : List (String × String))
    (saveErr : ManagedFile → Option String) (now : Int) (file : ManagedFile) :
    FileProcess → List OutputFormat → List ManagedFile → OutResult
  | fp, [], acc => ⟨fp, [], some acc⟩
  | fp, f :: rest, acc =>
    let r := runTemplates fm mimeTable saveErr now file f.storageType fp f.targetFileNames acc
    match r.outcome with
    | none => ⟨r.fp, r.events, none⟩
    | some acc1 =>
      let r2 := runOutputs fm mimeTable saveErr now file r.fp rest acc1
      ⟨r2.fp, r.events ++ r2.events, r2.outcome⟩

/-- The projection of an output ManagedFile to a ProcessingResultFile. -/
def toResultFile (f : ManagedFile) : ProcessingResultFile :=
  { fileName := f.fileName, localFilePath := f.localFilePath, url := f.url,
    fileSize := f.fileSize, mimeType := f.mimeType }

/-- Result of one ProcessFile invocation: the FileProcess, the channel
events in order (sends and the final close), and the names of the plugins
invoked. -/
structure RunResult where
  fp : FileProcess
  events : List ChanEvent
  invoked : List String

/-- The body of ProcessFile from processing.go: recipe lookup, mime and
size validation, the step loop, metadata stamping of the process id, the
output expansion, and the terminal success status followed by the
post-append Done write through LatestStatus. -/
def ProcessFileBody (fm : FileManager) (mimeTable : List (String × String))
    (saveErr : ManagedFile → Option String) (now : Int) (file : ManagedFile)
    (recipeName : String) (fileProcess : FileProcess) : RunResult :=
  match lookupStr fm.recipes recipeName with
  | none =>
    let fp1 := AddProcessingUpdate fileProcess (recipeNotFoundStatus fileProcess.id now recipeName)
    ⟨fp1, [ChanEvent.send fp1], []⟩
  | some recipe =>
    if isValidMimeType file.mimeType recipe.acceptedMimeTypes = false then
      let fp1 := AddProcessingUpdate fileProcess (invalidMimeStatus fileProcess.id now file.mimeType)
      ⟨fp1, [ChanEvent.send fp1], []⟩
    else if sizeInvalid file recipe then
      let fp1 := AddProcessingUpdate fileProcess (invalidSizeStatus fileProcess.id now file.fileSize)
      ⟨fp1, [ChanEvent.send fp1], []⟩
    else
      let sr := runSteps fm now recipe.processingSteps.length fileProcess [file] recipe.processingSteps
      match sr.outcome with
      | none => ⟨sr.fp, sr.events, sr.invoked⟩
      | some _files =>
        let file := { file with metaData := setMeta file.metaData "process_id" fileProcess.id }
        let orr := runOutputs fm mimeTable saveErr now file sr.fp recipe.outputFormats []
        match orr.outcome with
        | none => ⟨orr.fp, sr.events ++ orr.events, sr.invoked⟩
        | some outputFiles =>
          let resultingFiles := outputFiles.map toResultFile
          let fpF := setLatestDone (AddProcessingUpdate orr.fp (completedStatus orr.fp.id now resultingFiles))
          ⟨fpF, sr.events ++ orr.events ++ [ChanEvent.send fpF], sr.invoked⟩

/-- ProcessFile from processing.go: the body followed by the deferred
close of the status channel, which runs on every return path after the
last send of that path. -/
def ProcessFile (fm : FileManager) (mimeTable : List (String × String))
    (saveErr : ManagedFile → Option String) (now : Int) (file : ManagedFile)
    (recipeName : String) (fileProcess : FileProcess) : RunResult :=
  let r := ProcessFileBody fm mimeTable saveErr now file recipeName fileProcess
  { r with events := r.events ++ [ChanEvent.close] }

/-- Helper predicate: none of the events of the list is the channel
close. -/
def noClose (l : List ChanEvent) : Prop := ∀ e ∈ l, e ≠ ChanEvent.close

theorem noClose_nil : noClose [] := by
  intro e he
  cases he

theorem noClose_send (fp : FileProcess) : noClose [ChanEvent.send fp] := by
  intro e he
  simp only [List.mem_singleton] at he
  subst he
  simp

theorem noClose_cons_send (fp : FileProcess) (l : List ChanEvent) (h : noClose l) :
    noClose (ChanEvent.send fp :: l) := by
  intro e he
  rcases List.mem_cons.mp he with rfl | hm
  · simp
  · exact h e hm

theorem noClose_append (a b : List ChanEvent) (ha : noClose a) (hb : noClose b) :
    noClose (a ++ b) := by
  intro e he
  rcases List.mem_append.mp he with h | h
  · exact ha e h
  · exact hb e h

theorem runSteps_noClose (fm : FileManager) (now : Int) (totalSteps : Nat)
    (steps : List ProcessingStep) :
    ∀ fp files, noClose (runSteps fm now totalSteps fp files steps).events := by
  induction steps with
  | nil => intro fp files; exact noClose_nil
  | cons step rest ih =>
    intro fp files
    simp only [runSteps]
    split
    · exact ih _ _
    · split
      · exact noClose_send _
      · split
        · exact noClose_send _
        · exact noClose_cons_send _ _ (ih _ _)

theorem runTemplates_noClose (fm : FileManager) (mimeTable : List (String × String))
    (saveErr : ManagedFile → Option String) (now : Int) (file : ManagedFile)
    (storageType : String) (tmpls : List String) :
    ∀ fp acc, noClose (runTemplates fm mimeTable saveErr now file storageType fp tmpls acc).events := by
  induction tmpls with
  | nil => intro fp acc; exact noClose_nil
  | cons tmpl rest ih =>
    intro fp acc
    simp only [runTemplates]
    split
    · exact noClose_send _
    · split
      · exact noClose_send _
      · exact ih _ _

theorem runOutputs_noClose (fm : FileManager) (mimeTable : List (String × String))
    (saveErr : ManagedFile → Option String) (now : Int) (file : ManagedFile)
    (formats : List OutputFormat) :
    ∀ fp acc, noClose (runOutputs fm mimeTable saveErr now file fp formats acc).events := by
  induction formats with
  | nil => intro fp acc; exact noClose_nil
  | cons f rest ih =>
    intro fp acc
    simp only [runOutputs]
    split
    · exact runTemplates_noClose fm mimeTable saveErr now file f.storageType f.targetFileNames _ _
    · exact noClose_append _ _
        (runTemplates_noClose fm mimeTable saveErr now file f.storageType f.targetFileNames _ _)
        (ih _ _)

theorem ProcessFileBody_noClose (fm : FileManager) (mimeTable : List (String × String))
    (saveErr : ManagedFile → Option String) (now : Int) (file : ManagedFile)
    (recipeName : String) (fileProcess : FileProcess) :
    noClose (ProcessFileBody fm mimeTable saveErr now file recipeName fileProcess).events := by
  simp only [ProcessFileBody]
  split
  · exact noClose_send _
  · split
    · exact noClose_send _
    · split
      · exact noClose_send _
      · split
        · exact runSteps_noClose _ _ _ _ _ _
        · split
          · exact noClose_append _ _ (runSteps_noClose _ _ _ _ _ _)
              (runOutputs_noClose _ _ _ _ _ _ _ _)
          · exact noClose_append _ _
              (noClose_append _ _ (runSteps_noClose _ _ _ _ _ _)
                (runOutputs_noClose _ _ _ _ _ _ _ _))
              (noClose_send _)

theorem filter_noClose_eq_nil (l : List ChanEvent) (h : noClose l) :
    l.filter ChanEvent.isClose = [] := by
  induction l with
  | nil => rfl
  | cons a t ih =>
    have ha := h a (List.mem_cons_self a t)
    have hfa : ChanEvent.isClose a = false := by
      cases a with
      | send fp => rfl
      | close => exact absurd rfl ha
    simp [List.filter, hfa, ih (fun e he => h e (List.mem_cons_of_mem a he))]

/-- C2: for every invocation of ProcessFile, on every exit path the status
channel is closed exactly once before the function returns (the deferred
close), and the close is the last channel event, so a consumer looping
until channel close always terminates. -/
theorem processFile_channel_closed_once (fm : FileManager) (mimeTable : List (String × String))
    (saveErr : ManagedFile → Option String) (now : Int) (file : ManagedFile)
    (recipeName : String) (fileProcess : FileProcess) :
    ((ProcessFile fm mimeTable saveErr now file recipeName fileProcess).events.filter
        ChanEvent.isClose).length = 1 ∧
    (ProcessFile fm mimeTable saveErr now file recipeName fileProcess).events.getLast?
      = some ChanEvent.close := by
  have h := ProcessFileBody_noClose fm mimeTable saveErr now file recipeName fileProcess
  unfold ProcessFile
  constructor
  · rw [List.filter_append, filter_noClose_eq_nil _ h]
    rfl
  · exact List.getLast?_concat _

/-- Every status of the list has done = false. -/
def allNotDone (l : List ProcessingStatus) : Prop := ∀ s ∈ l, s.done = false

/-- The list is a prefix of non-done statuses followed by one terminal
done status. -/
def endsWithDone (l : List ProcessingStatus) : Prop :=
  ∃ pre fin, l = pre ++ [fin] ∧ allNotDone pre ∧ fin.done = true

theorem allNotDone_nil : allNotDone [] := by
  intro s hs
  cases hs

theorem allNotDone_append {a b : List ProcessingStatus}
    (ha : allNotDone a) (hb : allNotDone b) : allNotDone (a ++ b) := by
  intro s hs
  rcases List.mem_append.mp hs with h | h
  · exact ha s h
  · exact hb s h

theorem lookupStr_mem {α : Type} {l : List (String × α)} {k : String} {v : α}
    (h : lookupStr l k = some v) : ∃ p, p ∈ l ∧ p.2 = v := by
  unfold lookupStr at h
  cases hf : l.find? (fun p => p.1 == k) with
  | none => rw [hf] at h; cases h
  | some p =>
    rw [hf] at h
    refine ⟨p, List.mem_of_find?_eq_some hf, ?_⟩
    simpa using h

/-- Hypothesis on the plugin registry: every status a registered plugin
appends carries done = false (terminal statuses are appended by the
engine alone). -/
def pluginsNonDone (fm : FileManager) : Prop :=
  ∀ pr ∈ fm.processingPlugins, ∀ files, ∀ s ∈ (pr.2.process files).1, s.done = false

theorem foldl_add_updates (l : List ProcessingStatus) (fp : FileProcess) :
    (l.foldl AddProcessingUpdate fp).processingUpdates = fp.processingUpdates ++ l := by
  induction l generalizing fp with
  | nil => simp
  | cons a t ih =>
    simp only [List.foldl_cons, ih, AddProcessingUpdate]
    simp

theorem setLatestDone_updates (fp : FileProcess) :
    (setLatestDone fp).processingUpdates = fp.processingUpdates := rfl

theorem runSteps_log (fm : FileManager) (now : Int) (totalSteps : Nat)
    (hp : pluginsNonDone fm) (steps : List ProcessingStep) :
    ∀ fp files, allNotDone fp.processingUpdates →
      ((runSteps fm now totalSteps fp files steps).outcome ≠ none →
        allNotDone (runSteps fm now totalSteps fp files steps).fp.processingUpdates) ∧
      ((runSteps fm now totalSteps fp files steps).outcome = none →
        endsWithDone (runSteps fm now totalSteps fp files steps).fp.processingUpdates) := by
  induction steps with
  | nil =>
    intro fp files hfp
    constructor
    · intro _
      simpa [runSteps] using hfp
    · intro h
      simp [runSteps] at h
  | cons step rest ih =>
    intro fp files hfp
    simp only [runSteps]
    split
    · exact ih fp files hfp
    · split
      · -- plugin not found: one terminal status appended
        constructor
        · intro hcontr
          exact absurd rfl hcontr
        · intro _
          exact ⟨fp.processingUpdates, pluginNotFoundStatus fp.id now step.pluginName,
            rfl, hfp, rfl⟩
      · rename_i plugin hl
        have happ : allNotDone (plugin.process files).1 := by
          obtain ⟨p, hmem, hp2⟩ := lookupStr_mem hl
          intro s hs
          exact hp p hmem files s (by rw [hp2]; exact hs)
        split
        · -- plugin error: appended plugin statuses then one terminal status
          rename_i err herr
          constructor
          · intro hcontr
            exact absurd rfl hcontr
          · intro _
            refine ⟨(List.foldl AddProcessingUpdate fp (plugin.process files).1).processingUpdates,
              stepFailedStatus fp.id now step.pluginName err, rfl, ?_, rfl⟩
            rw [foldl_add_updates]
            exact allNotDone_append hfp happ
        · -- successful step: recurse with the extended non-done log
          rename_i processedFiles hok
          refine ih _ processedFiles ?_
          rw [AddProcessingUpdate, foldl_add_updates]
          refine allNotDone_append (allNotDone_append hfp happ) ?_
          intro s hs
          simp only [List.mem_singleton] at hs
          subst hs
          rfl

theorem runTemplates_log (fm : FileManager) (mimeTable : List (String × String))
    (saveErr : ManagedFile → Option String) (now : Int) (file : ManagedFile)
    (storageType : String) (tmpls : List String) :
    ∀ fp acc,
      ((runTemplates fm mimeTable saveErr now file storageType fp tmpls acc).outcome ≠ none →
        (runTemplates fm mimeTable saveErr now file storageType fp tmpls acc).fp = fp) ∧
      ((runTemplates fm mimeTable saveErr now file storageType fp tmpls acc).outcome = none →
        ∃ s, (runTemplates fm mimeTable saveErr now file storageType fp tmpls acc).fp
            = AddProcessingUpdate fp s ∧ s.done = true) := by
  induction tmpls with
  | nil =>
    intro fp acc
    constructor
    · intro _
      rfl
    · intro h
      exact Option.noConfusion h
  | cons tmpl rest ih =>
    intro fp acc
    simp only [runTemplates]
    split
    · constructor
      · intro hcontr
        exact absurd rfl hcontr
      · intro _
        exact ⟨invalidStorageStatus fp.id now storageType, rfl, rfl⟩
    · split
      · rename_i err herr
        constructor
        · intro hcontr
          exact absurd rfl hcontr
        · intro _
          exact ⟨saveFailedStatus fp.id now err, rfl, rfl⟩
      · exact ih fp _

theorem runOutputs_log (fm : FileManager) (mimeTable : List (String × String))
    (saveErr : ManagedFile → Option String) (now : Int) (file : ManagedFile)
    (formats : List OutputFormat) :
    ∀ fp acc,
      ((runOutputs fm mimeTable saveErr now file fp formats acc).outcome ≠ none →
        (runOutputs fm mimeTable saveErr now file fp formats acc).fp = fp) ∧
      ((runOutputs fm mimeTable saveErr now file fp formats acc).outcome = none →
        ∃ s, (runOutputs fm mimeTable saveErr now file fp formats acc).fp
            = AddProcessingUpdate fp s ∧ s.done = true) := by
  induction formats with
  | nil =>
    intro fp acc
    constructor
    · intro _
      rfl
    · intro h
      exact Option.noConfusion h
  | cons f rest ih =>
    intro fp acc
    simp only [runOutputs]
    split
    · rename_i hout
      constructor
      · intro hcontr
        exact absurd rfl hcontr
      · intro _
        exact (runTemplates_log fm mimeTable saveErr now file f.storageType f.targetFileNames fp acc).2 hout
    · rename_i acc1 hout
      have htfp : (runTemplates fm mimeTable saveErr now file f.storageType fp f.targetFileNames acc).fp = fp :=
        (runTemplates_log fm mimeTable saveErr now file f.storageType f.targetFileNames fp acc).1
          (by rw [hout]; exact fun h => Option.noConfusion h)
      constructor
      · intro h
        have := (ih _ acc1).1 h
        rw [this, htfp]
      · intro h
        obtain ⟨s, hs, hd⟩ := (ih _ acc1).2 h
        exact ⟨s, by rw [hs, htfp], hd⟩

theorem endsWithDone_spec {l : List ProcessingStatus} (h : endsWithDone l) :
    (l.filter (fun s => s.done)).length = 1 ∧
    ∃ s, l.getLast? = some s ∧ s.done = true := by
  obtain ⟨pre, fin, rfl, hpre, hfin⟩ := h
  constructor
  · rw [List.filter_append]
    have hnil : pre.filter (fun s => s.done) = [] := by
      rw [List.filter_eq_nil_iff]
      intro s hs
      simp [hpre s hs]
    rw [hnil]
    simp [List.filter, hfin]
  · refine ⟨fin, ?_, hfin⟩
    rw [List.getLast?_concat]

theorem ProcessFileBody_endsWithDone (fm : FileManager) (mimeTable : List (String × String))
    (saveErr : ManagedFile → Option String) (now : Int) (file : ManagedFile)
    (recipeName : String) (fileProcess : FileProcess)
    (hfp : allNotDone fileProcess.processingUpdates) (hp : pluginsNonDone fm) :
    endsWithDone (ProcessFileBody fm mimeTable saveErr now file recipeName fileProcess).fp.processingUpdates := by
  simp only [ProcessFileBody]
  split
  · exact ⟨fileProcess.processingUpdates, recipeNotFoundStatus fileProcess.id now recipeName,
      rfl, hfp, rfl⟩
  · split
    · exact ⟨fileProcess.processingUpdates, invalidMimeStatus fileProcess.id now file.mimeType,
        rfl, hfp, rfl⟩
    · split
      · exact ⟨fileProcess.processingUpdates, invalidSizeStatus fileProcess.id now file.fileSize,
          rfl, hfp, rfl⟩
      · rename_i recipe hrec hmime hsize
        split
        · rename_i hout
          exact (runSteps_log fm now recipe.processingSteps.length hp recipe.processingSteps
            fileProcess [file] hfp).2 hout
        · rename_i _files hout
          have hsteps : allNotDone (runSteps fm now recipe.processingSteps.length fileProcess
              [file] recipe.processingSteps).fp.processingUpdates :=
            (runSteps_log fm now recipe.processingSteps.length hp recipe.processingSteps
              fileProcess [file] hfp).1 (by rw [hout]; exact fun h => Option.noConfusion h)
          split
          · rename_i horr
            obtain ⟨s, hs, hd⟩ := (runOutputs_log fm mimeTable saveErr now _ _ _ _).2 horr
            rw [hs]
            exact ⟨_, s, rfl, hsteps, hd⟩
          · rename_i outputFiles horr
            have horrfp := (runOutputs_log fm mimeTable saveErr now _ _ _ _).1
              (by rw [horr]; exact fun h => Option.noConfusion h)
            rw [setLatestDone_updates, AddProcessingUpdate]
            rw [horrfp]
            exact ⟨_, _, rfl, hsteps, rfl⟩

/-- C1: for every terminating invocation of ProcessFile on a fresh
FileProcess (empty log), given that plugins append only non-terminal
statuses, the resulting ProcessingUpdates log contains exactly one entry
with done = true, and that entry is the last element of the log. -/
theorem processFile_exactly_one_done (fm : FileManager) (mimeTable : List (String × String))
    (saveErr : ManagedFile → Option String) (now : Int) (file : ManagedFile)
    (recipeName : String) (fileProcess : FileProcess)
    (hfp : fileProcess.processingUpdates = []) (hp : pluginsNonDone fm) :
    ((ProcessFile fm mimeTable saveErr now file recipeName fileProcess).fp.processingUpdates.filter
        (fun s => s.done)).length = 1 ∧
    ∃ s, (ProcessFile fm mimeTable saveErr now file recipeName fileProcess).fp.processingUpdates.getLast?
        = some s ∧ s.done = true := by
  have hfp0 : allNotDone fileProcess.processingUpdates := by
    rw [hfp]
    exact allNotDone_nil
  exact endsWithDone_spec
    (ProcessFileBody_endsWithDone fm mimeTable saveErr now file recipeName fileProcess hfp0 hp)

/-- Recipe of the C1 witness: accepts text, no steps, no outputs. -/
def recipeW1 : Recipe :=
  { name := "r", acceptedMimeTypes := ["text/"], minFileSize := 0, maxFileSize := 100,
    processingSteps := [], outputFormats := [] }

/-- FileManager of the C1 witness. -/
def fmW1 : FileManager :=
  { publicLocalBasePath := "/pub", privateLocalBasePath := "/priv",
    baseUrl := "https://cdn.x/", localTempPath := "/tmp",
    processingPlugins := [], recipes := [("r", recipeW1)] }

/-- Input file of the C1 witness. -/
def fileW1 : ManagedFile :=
  { fileName := "input.txt", mimeType := "text/plain", url := "", localFilePath := "",
    fileSize := 10, metaData := [], processingErrors := [], content := [] }

/-- Fresh FileProcess of the C1 witness. -/
def fpW1 : FileProcess :=
  { id := "FPW1", incomingFileName := "input.txt", recipeName := "r",
    processingUpdates := [], latestStatus := none }

/-- C1 witness: on a concrete successful run the hypotheses hold and the
log carries exactly one done entry, in last position. -/
theorem processFile_exactly_one_done_witness :
    fpW1.processingUpdates = [] ∧ pluginsNonDone fmW1 ∧
    ((ProcessFile fmW1 [] (fun _ => none) 0 fileW1 "r" fpW1).fp.processingUpdates.filter
        (fun s => s.done)).length = 1 := by
  refine ⟨rfl, ?_, ?_⟩
  · intro pr hpr
    simp [fmW1] at hpr
  · exact (processFile_exactly_one_done fmW1 [] (fun _ => none) 0 fileW1 "r" fpW1 rfl
      (by intro pr hpr; simp [fmW1] at hpr)).1

/-- C3: with the recipe found and the mime check failing, ProcessFile
appends exactly one terminal status with a non-nil error, invokes no
plugin and returns; and a mime type is valid precisely when it starts,
case-insensitively, with some accepted entry. -/
theorem processFile_mime_reject (fm : FileManager) (mimeTable : List (String × String))
    (saveErr : ManagedFile → Option String) (now : Int) (file : ManagedFile)
    (recipeName : String) (fileProcess : FileProcess) (recipe : Recipe)
    (hrec : lookupStr fm.recipes recipeName = some recipe)
    (hmime : isValidMimeType file.mimeType recipe.acceptedMimeTypes = false) :
    (ProcessFile fm mimeTable saveErr now file recipeName fileProcess).fp.processingUpdates
      = fileProcess.processingUpdates ++ [invalidMimeStatus fileProcess.id now file.mimeType] ∧
    (invalidMimeStatus fileProcess.id now file.mimeType).error ≠ none ∧
    (invalidMimeStatus fileProcess.id now file.mimeType).done = true ∧
    (ProcessFile fm mimeTable saveErr now file recipeName fileProcess).invoked = [] ∧
    (∀ m acc, isValidMimeType m acc = true ↔
      ∃ a ∈ acc, goHasPre (lowerStr m) (lowerStr a) = true) := by
  refine ⟨?_, by simp [invalidMimeStatus], rfl, ?_, ?_⟩
  · simp [ProcessFile, ProcessFileBody, hrec, hmime, AddProcessingUpdate]
  · simp [ProcessFile, ProcessFileBody, hrec, hmime]
  · intro m acc
    simp [isValidMimeType, List.any_eq_true]

/-- Recipe of the C3 witness: accepts only image mime types. -/
def recipeW3 : Recipe :=
  { name := "r3", acceptedMimeTypes := ["image/"], minFileSize := 0, maxFileSize := 100,
    processingSteps := [], outputFormats := [] }

/-- FileManager of the C3 witness. -/
def fmW3 : FileManager :=
  { publicLocalBasePath := "/pub", privateLocalBasePath := "/priv",
    baseUrl := "https://cdn.x/", localTempPath := "/tmp",
    processingPlugins := [], recipes := [("r3", recipeW3)] }

/-- C3 witness: a text file against an image-only recipe is rejected with
no plugin invocation. -/
theorem processFile_mime_reject_witness :
    lookupStr fmW3.recipes "r3" = some recipeW3 ∧
    isValidMimeType fileW1.mimeType recipeW3.acceptedMimeTypes = false ∧
    (ProcessFile fmW3 [] (fun _ => none) 0 fileW1 "r3" fpW1).invoked = [] := by
  refine ⟨rfl, by decide, ?_⟩
  exact (processFile_mime_reject fmW3 [] (fun _ => none) 0 fileW1 "r3" fpW1 recipeW3 rfl
    (by decide)).2.2.2.1

/-- C4: with the recipe found and the mime check passing, a file whose
size fails the inclusive bounds check is rejected with one terminal
InvalidFileSize status before any plugin is invoked; and a size equal to
either bound passes the check. -/
theorem processFile_size_reject (fm : FileManager) (mimeTable : List (String × String))
    (saveErr : ManagedFile → Option String) (now : Int) (file : ManagedFile)
    (recipeName : String) (fileProcess : FileProcess) (recipe : Recipe)
    (hrec : lookupStr fm.recipes recipeName = some recipe)
    (hmime : isValidMimeType file.mimeType recipe.acceptedMimeTypes = true)
    (hsize : sizeInvalid file recipe = true) :
    (ProcessFile fm mimeTable saveErr now file recipeName fileProcess).fp.processingUpdates
      = fileProcess.processingUpdates ++ [invalidSizeStatus fileProcess.id now file.fileSize] ∧
    (invalidSizeStatus fileProcess.id now file.fileSize).error ≠ none ∧
    (invalidSizeStatus fileProcess.id now file.fileSize).done = true ∧
    (ProcessFile fm mimeTable saveErr now file recipeName fileProcess).invoked = [] ∧
    (∀ (g : ManagedFile) (rc : Recipe), rc.minFileSize ≤ rc.maxFileSize →
      (g.fileSize = rc.minFileSize ∨ g.fileSize = rc.maxFileSize) →
      sizeInvalid g rc = false) := by
  refine ⟨?_, by simp [invalidSizeStatus], rfl, ?_, ?_⟩
  · simp [ProcessFile, ProcessFileBody, hrec, hmime, hsize, AddProcessingUpdate]
  · simp [ProcessFile, ProcessFileBody, hrec, hmime, hsize]
  · intro g rc hle hb
    rcases hb with h | h <;> simp [sizeInvalid, h] <;> omega

/-- Recipe of the C4 witness, with the bounds of the spec scenario. -/
def recipeW4 : Recipe :=
  { name := "r4", acceptedMimeTypes := ["text/"], minFileSize := 1024, maxFileSize := 1000000,
    processingSteps := [], outputFormats := [] }

/-- FileManager of the C4 witness. -/
def fmW4 : FileManager :=
  { publicLocalBasePath := "/pub", privateLocalBasePath := "/priv",
    baseUrl := "https://cdn.x/", localTempPath := "/tmp",
    processingPlugins := [], recipes := [("r4", recipeW4)] }

/-- File of the C4 witness: 500 bytes, below the 1024 minimum. -/
def fileW4 : ManagedFile :=
  { fileW1 with fileSize := 500 }

/-- C4 witness: the 500-byte file is rejected by the [1024, 1000000]
recipe before any plugin runs. -/
theorem processFile_size_reject_witness :
    lookupStr fmW4.recipes "r4" = some recipeW4 ∧
    isValidMimeType fileW4.mimeType recipeW4.acceptedMimeTypes = true ∧
    sizeInvalid fileW4 recipeW4 = true ∧
    (ProcessFile fmW4 [] (fun _ => none) 0 fileW4 "r4" fpW1).fp.processingUpdates
      = fpW1.processingUpdates ++ [invalidSizeStatus fpW1.id 0 fileW4.fileSize] := by
  refine ⟨rfl, by decide, by decide, ?_⟩
  exact (processFile_size_reject fmW4 [] (fun _ => none) 0 fileW4 "r4" fpW1 recipeW4 rfl
    (by decide) (by decide)).1

theorem runSteps_updates_ext (fm : FileManager) (now : Int) (totalSteps : Nat)
    (steps : List ProcessingStep) :
    ∀ fp files, ∃ t, (runSteps fm now totalSteps fp files steps).fp.processingUpdates
      = fp.processingUpdates ++ t := by
  induction steps with
  | nil =>
    intro fp files
    exact ⟨[], by simp [runSteps]⟩
  | cons step rest ih =>
    intro fp files
    simp only [runSteps]
    split
    · exact ih _ _
    · split
      · exact ⟨[pluginNotFoundStatus fp.id now step.pluginName], rfl⟩
      · rename_i plugin hl
        split
        · rename_i err herr
          refine ⟨(plugin.process files).1 ++ [stepFailedStatus fp.id now step.pluginName err], ?_⟩
          simp [AddProcessingUpdate, foldl_add_updates]
        · rename_i processedFiles hok
          obtain ⟨t, ht⟩ := ih (AddProcessingUpdate
            (List.foldl AddProcessingUpdate fp (plugin.process files).1)
            (stepCompletedStatus fp.id now step.pluginName
              ((processedFiles.length * 100 / totalSteps : Nat) : Int))) processedFiles
          refine ⟨(plugin.process files).1
            ++ stepCompletedStatus fp.id now step.pluginName
                ((processedFiles.length * 100 / totalSteps : Nat) : Int) :: t, ?_⟩
          rw [ht]
          simp [AddProcessingUpdate, foldl_add_updates]

/-- Plugin of the C6 concrete run: duplicates the working set. -/
def dupPlugin : PluginModel := ⟨fun files => ([], Except.ok (files ++ files))⟩

/-- Plugin of the C6 concrete run: collapses the working set to its first
file (a merge). -/
def mergePlugin : PluginModel := ⟨fun files => ([], Except.ok (files.take 1))⟩

/-- First step of the C6 concrete recipe. -/
def stepC6a : ProcessingStep := { pluginName := "dup", params := [] }

/-- Second step of the C6 concrete recipe. -/
def stepC6b : ProcessingStep := { pluginName := "merge", params := [] }

/-- Recipe of the C6 concrete run: two steps, no outputs. -/
def recipeC6 : Recipe :=
  { name := "r6", acceptedMimeTypes := ["text/"], minFileSize := 0, maxFileSize := 100,
    processingSteps := [stepC6a, stepC6b], outputFormats := [] }

/-- FileManager of the C6 concrete run. -/
def fmC6 : FileManager :=
  { publicLocalBasePath := "/pub", privateLocalBasePath := "/priv",
    baseUrl := "https://cdn.x/", localTempPath := "/tmp",
    processingPlugins := [("dup", dupPlugin), ("merge", mergePlugin)],
    recipes := [("r6", recipeC6)] }

/-- C6: after every successful plugin step, the appended progress status
carries percentage = (current file count * 100) / (total step count),
with integer division; consequently the reported percentage can decrease
when a step shrinks the file count, as the concrete two-step run shows
(a duplicating step reports 100, the following merge step reports 50). -/
theorem step_progress_percentage (fm : FileManager) (now : Int) (totalSteps : Nat)
    (fp : FileProcess) (files : List ManagedFile) (step : ProcessingStep)
    (rest : List ProcessingStep) (plugin : PluginModel) (app : List ProcessingStatus)
    (processed : List ManagedFile)
    (hname : ¬step.pluginName = "")
    (hlook : lookupStr fm.processingPlugins step.pluginName = some plugin)
    (hproc : plugin.process files = (app, Except.ok processed)) :
    (∃ t, (runSteps fm now totalSteps fp files (step :: rest)).fp.processingUpdates
        = fp.processingUpdates ++ app
          ++ stepCompletedStatus fp.id now step.pluginName
              ((processed.length * 100 / totalSteps : Nat) : Int) :: t) ∧
    (stepCompletedStatus fp.id now step.pluginName
        ((processed.length * 100 / totalSteps : Nat) : Int)).percentage
      = ((processed.length * 100 / totalSteps : Nat) : Int) ∧
    ((ProcessFile fmC6 [] (fun _ => none) 0 fileW1 "r6" fpW1).fp.processingUpdates.map
        (fun s => s.percentage)) = [100, 50, 100] := by
  refine ⟨?_, rfl, by decide⟩
  simp only [runSteps, if_neg hname, hlook, hproc]
  obtain ⟨t, ht⟩ := runSteps_updates_ext fm now totalSteps rest
    (AddProcessingUpdate (List.foldl AddProcessingUpdate fp app)
      (stepCompletedStatus fp.id now step.pluginName
        ((processed.length * 100 / totalSteps : Nat) : Int))) processed
  refine ⟨t, ?_⟩
  rw [ht]
  simp [AddProcessingUpdate, foldl_add_updates]

/-- C6 witness: the first step of the concrete run satisfies the
hypotheses, and the appended status reports (2 * 100) / 2 = 100. -/
theorem step_progress_percentage_witness :
    ¬stepC6a.pluginName = "" ∧
    lookupStr fmC6.processingPlugins stepC6a.pluginName = some dupPlugin ∧
    dupPlugin.process [fileW1] = ([], Except.ok [fileW1, fileW1]) ∧
    (∃ t, (runSteps fmC6 0 2 fpW1 [fileW1] (stepC6a :: [stepC6b])).fp.processingUpdates
        = fpW1.processingUpdates ++ []
          ++ stepCompletedStatus fpW1.id 0 stepC6a.pluginName
              (([fileW1, fileW1].length * 100 / 2 : Nat) : Int) :: t) := by
  refine ⟨by decide, rfl, rfl, ?_⟩
  exact (step_progress_percentage fmC6 0 2 fpW1 [fileW1] stepC6a [stepC6b] dupPlugin []
    [fileW1, fileW1] (by decide) rfl rfl).1

theorem lookupStr_none_of_keys_dot (q : String) (hq : goHasPre q "." = false) :
    ∀ t : List (String × String), (∀ p ∈ t, goHasPre p.1 "." = true) →
      lookupStr t q = none := by
  intro t
  induction t with
  | nil => intro _; rfl
  | cons p rest ih =>
    intro ht
    have hp := ht p (List.mem_cons_self p rest)
    have hne : (p.1 == q) = false := by
      apply beq_eq_false_iff_ne.mpr
      intro h
      rw [h, hq] at hp
      cases hp
    simp only [lookupStr, List.find?_cons, hne]
    exact ih (fun p2 hp2 => ht p2 (List.mem_cons_of_mem _ hp2))

theorem mimeTypeByExtension_dot_keys (mimeTable : List (String × String))
    (ht : ∀ p ∈ mimeTable, goHasPre p.1 "." = true)
    (q : String) (hq : goHasPre q "." = false) (hql : goHasPre (lowerStr q) "." = false) :
    mimeTypeByExtension mimeTable q = "" := by
  unfold mimeTypeByExtension
  rw [lookupStr_none_of_keys_dot q hq mimeTable ht,
    lookupStr_none_of_keys_dot (lowerStr q) hql mimeTable ht]
  rfl

theorem replAux_report (md : List (String × String)) (l : List Char) :
    replAux md ("report_".toList ++ l) RState.scan
      = "report_".toList ++ replAux md l RState.scan := rfl

theorem replAux_opener_run (md : List (String × String)) (l : List Char) :
    replAux md ('\x7b' :: ("metadata.".toList ++ l)) RState.scan
      = replAux md l (RState.key []) := rfl

theorem replAux_key_run (md : List (String × String)) (ks : List Char) :
    ∀ acc rest, '\x7d' ∉ ks → acc ++ ks ≠ [] →
      replAux md (ks ++ '\x7d' :: rest) (RState.key acc)
        = ((lookupStr md (String.mk (acc ++ ks))).getD "").toList
          ++ replAux md rest RState.scan := by
  induction ks with
  | nil =>
    intro acc rest _ hne
    have hacc : ¬acc = [] := by simpa using hne
    simp [replAux, hacc]
  | cons k ks ih =>
    intro acc rest hk hne
    have hkne : ¬k = '\x7d' := by
      intro h
      exact hk (h ▸ List.mem_cons_self k ks)
    simp only [List.cons_append, replAux, if_neg hkne, List.append_eq]
    rw [ih (acc ++ [k]) rest (fun h => hk (List.mem_cons_of_mem _ h)) (by simp)]
    simp

/-- Input file of the C7 scenario: the original file name carries the
.txt extension and the metadata maps lang to en. -/
def fileC7 : ManagedFile :=
  { fileName := "input.txt", mimeType := "text/plain", url := "", localFilePath := "",
    fileSize := 1, metaData := [("lang", "en")], processingErrors := [], content := [] }

/-- C7: for the metadata mapping lang to en and the template
report_\x7bmetadata.lang\x7d, output-name resolution (as ProcessFile
performs it) yields report_en plus the extension of the original file
name, here report_en.txt; and in general every metadata token of a
template is replaced by the metadata value of its key, with absent keys
replaced by the empty string. The mime-table hypothesis states the shape
of the real extension table: every key begins with a dot. -/
theorem filename_templating (mimeTable : List (String × String))
    (htable : ∀ p ∈ mimeTable, goHasPre p.1 "." = true) :
    resolveTargetFilePath mimeTable "report_\x7bmetadata.lang\x7d" fileC7 = "report_en.txt" ∧
    (∀ md (key : List Char), key ≠ [] → '\x7d' ∉ key →
      String.mk (replAux md ("report_".toList ++ (tokenStart ++ (key ++ ['\x7d']))) RState.scan)
        = "report_" ++ ((lookupStr md (String.mk key)).getD "")) := by
  have hmime : mimeTypeByExtension mimeTable "input.txt" = "" :=
    mimeTypeByExtension_dot_keys mimeTable htable "input.txt" (by decide) (by decide)
  constructor
  · unfold resolveTargetFilePath ReplaceFileNameVariables
    rw [show fileC7.fileName = "input.txt" from rfl, hmime]
    decide
  · intro md key hne hkey
    rw [show tokenStart ++ (key ++ ['\x7d'])
        = '\x7b' :: ("metadata.".toList ++ (key ++ ['\x7d'])) from rfl]
    rw [replAux_report, replAux_opener_run]
    rw [show key ++ ['\x7d'] = key ++ '\x7d' :: [] from rfl]
    rw [replAux_key_run md key [] [] hkey (by simpa using hne)]
    rw [show replAux md [] RState.scan = [] from rfl]
    simp only [List.append_nil, List.nil_append]
    rfl

/-- Mime table of the C7 witness, one dot-keyed entry. -/
def mimeTableW : List (String × String) := [(".txt", "text/plain; charset=utf-8")]

/-- C7 witness: with the concrete dot-keyed table the scenario resolves to
report_en.txt. -/
theorem filename_templating_witness :
    (∀ p ∈ mimeTableW, goHasPre p.1 "." = true) ∧
    resolveTargetFilePath mimeTableW "report_\x7bmetadata.lang\x7d" fileC7 = "report_en.txt" := by
  refine ⟨by decide, ?_⟩
  exact (filename_templating mimeTableW (by decide)).1

/-- FileManager of the C8 scenario: base URL https://cdn.x/ and public
base path /data/pub. -/
def fmC8 : FileManager :=
  { publicLocalBasePath := "/data/pub", privateLocalBasePath := "/data/priv",
    baseUrl := "https://cdn.x/", localTempPath := "/tmp",
    processingPlugins := [], recipes := [] }

/-- C8: the file materialized at /data/pub/out.txt under the public base
path /data/pub and base URL https://cdn.x/ is assigned the public URL
https://cdn.x/out.txt; and in general the public URL of a path under the
public base is obtained by stripping that base prefix and joining the
remainder onto the configured base URL via joinURL. -/
theorem public_url_resolution :
    FileManager.GetPublicUrlForFile fmC8 "/data/pub/out.txt"
      = Except.ok "https://cdn.x/out.txt" ∧
    (∀ (fm : FileManager) (p : String), goHasPre p fm.publicLocalBasePath = true →
      fm.GetPublicUrlForFile p = joinURL fm.baseUrl (goTrimPre p fm.publicLocalBasePath)) := by
  constructor
  · rfl
  · intro fm p h
    unfold FileManager.GetPublicUrlForFile
    rw [h]
    rfl

/-- C8 witness: a nested public path resolves through the prefix-strip and
join pipeline. -/
theorem public_url_resolution_witness :
    goHasPre "/data/pub/img/a.png" fmC8.publicLocalBasePath = true ∧
    FileManager.GetPublicUrlForFile fmC8 "/data/pub/img/a.png"
      = joinURL fmC8.baseUrl (goTrimPre "/data/pub/img/a.png" fmC8.publicLocalBasePath) := by
  refine ⟨by decide, ?_⟩
  exact public_url_resolution.2 fmC8 "/data/pub/img/a.png" (by decide)

end FM
